import Mathlib

/-!
Verification of the beamforming engine of `App/Simulation.py`
(class `BeamformingSimulator`).

The Python code is shallowly embedded over the real numbers: numpy floats
become `ℝ`, complex accumulators become `ℂ`, the 200×200 grid becomes
functions out of `Fin 200`, and a method that can raise an exception
returns an `Except`/`Option` error component.  Mutating methods are
state transformers `SimState → args → SimState × result`; read-only
methods take the state and return only their result together with the
unchanged state.
-/

namespace Beamforming

noncomputable section

/-- One entry of `arrays_info`: the dict with keys
`num_elements`, `spacing`, `curvature`. -/
structure ArrayInfo where
  num_elements : ℕ
  spacing : ℝ
  curvature : ℝ

/-- Errors the Python methods can raise: `IndexError` from
`self.arrays_info[0]` on an empty list, `ZeroDivisionError` from
`3e8 / self.frequency` at frequency 0. -/
inductive PyError where
  | indexError : PyError
  | zeroDivisionError : PyError
deriving DecidableEq

/-- The fields of a `BeamformingSimulator` object. -/
structure SimState where
  frequency : ℝ
  steering_angle : ℝ
  arrays_info : List ArrayInfo
  wavelength : ℝ
  k : ℝ

/-- `np.radians`: degrees to radians. -/
def radians (d : ℝ) : ℝ := d * (Real.pi / 180)

/-- `BeamformingSimulator.__init__`: stores frequency, steering angle and
configurations, then computes `wavelength = 3e8 / frequency` and
`k = 2π / wavelength`. -/
def mkSimulator (frequency steering_angle : ℝ) (arrays_info : List ArrayInfo) :
    SimState :=
  let wavelength := 3e8 / frequency
  { frequency := frequency
    steering_angle := steering_angle
    arrays_info := arrays_info
    wavelength := wavelength
    k := 2 * Real.pi / wavelength }

/-- The angular increment `curvature_radians / (num_elements - 1)` used in
the curved branch of `calculate_element_positions`.  For `n = 1` the
divisor is zero (the Python source does not guard this division). -/
def angular_step (n : ℕ) (curvature_radians : ℝ) : ℝ :=
  curvature_radians / ((n : ℝ) - 1)

/-- `BeamformingSimulator.calculate_element_positions`.
Linear branch (`curvature_degree == 0`): element `i` at
`(i·spacing − (n−1)·spacing/2, 0)`.
Curved branch: radius `arc_length / curvature_radians`
(the `else np.inf` guard of the source is dead for `curvature_degree ≠ 0`,
since `np.radians` of a nonzero value is nonzero), element `i` at angle
`−curvature_radians/2 + i·(curvature_radians/(n−1))` on the circle of that
radius, shifted left by the radius. -/
def calculate_element_positions (num_elements : ℕ) (element_spacing curvature_degree : ℝ) :
    List (ℝ × ℝ) :=
  if curvature_degree = 0 then
    (List.range num_elements).map fun (i : ℕ) =>
      ((i : ℝ) * element_spacing - ((num_elements : ℝ) - 1) * element_spacing / 2, 0)
  else
    let arc_length := ((num_elements : ℝ) - 1) * element_spacing
    let curvature_radians := radians curvature_degree
    let radius := arc_length / curvature_radians
    (List.range num_elements).map fun (i : ℕ) =>
      let angle := -curvature_radians / 2 + (i : ℝ) * angular_step num_elements curvature_radians
      (radius * Real.cos angle - radius, radius * Real.sin angle)

/-- The sign `one = -1 if array_info['curvature'] == 0 else 1` of
`simulate_multiple_arrays`. -/
def curvatureSign (a : ArrayInfo) : ℝ :=
  if a.curvature = 0 then -1 else 1

/-- The per-element steering phase shift of `simulate_multiple_arrays`:
`-k * (ex * sin(one * radians(steering)) + ey * cos(radians(steering)))`. -/
def steering_phase_grid (k steering_angle one : ℝ) (e : ℝ × ℝ) : ℝ :=
  -k * (e.1 * Real.sin (one * radians steering_angle) +
        e.2 * Real.cos (radians steering_angle))

/-- Euclidean distance `np.sqrt((X - ex)**2 + (Y - ey)**2)` from grid
point `p` to element `e`. -/
def distance (p e : ℝ × ℝ) : ℝ :=
  Real.sqrt ((p.1 - e.1) ^ 2 + (p.2 - e.2) ^ 2)

/-- One element's contribution `np.exp(1j * (k * distances + phase_shift))`
to the accumulated field at grid point `p`. -/
def gridContribution (k steering_angle one : ℝ) (e p : ℝ × ℝ) : ℂ :=
  Complex.exp (Complex.I * ((k * distance p e + steering_phase_grid k steering_angle one e : ℝ) : ℂ))

/-- The accumulation loop of `simulate_multiple_arrays`: starting from the
zero map, for each configured array and each of its element positions, add
that element's contribution at grid point `p`. -/
def fieldAt (k steering_angle : ℝ) (arrays_info : List ArrayInfo) (p : ℝ × ℝ) : ℂ :=
  arrays_info.foldl
    (fun acc a =>
      (calculate_element_positions a.num_elements a.spacing a.curvature).foldl
        (fun acc2 e => acc2 + gridContribution k steering_angle (curvatureSign a) e p)
        acc)
    0

/-- `np.linspace a b 200`: sample `i` is `a + i * (b - a) / 199`. -/
def linspace (a b : ℝ) (i : Fin 200) : ℝ :=
  a + (i : ℝ) * ((b - a) / 199)

/-- The pre-normalization intensity `np.abs(intensity_map) ** 2` at grid
row `i`, column `j` (meshgrid convention: `X[i,j] = x[j]`, `Y[i,j] = y[i]`). -/
def intensityRaw (st : SimState) (x_range y_range : ℝ × ℝ) (i j : Fin 200) : ℝ :=
  Complex.abs (fieldAt st.k st.steering_angle st.arrays_info
    (linspace x_range.1 x_range.2 j, linspace y_range.1 y_range.2 i)) ^ 2

/-- `np.max(intensity)` over the 200×200 grid. -/
def intensityMax (st : SimState) (x_range y_range : ℝ × ℝ) : ℝ :=
  Finset.sup' Finset.univ Finset.univ_nonempty
    (fun ij : Fin 200 × Fin 200 => intensityRaw st x_range y_range ij.1 ij.2)

/-- The normalized intensity map `intensity /= np.max(intensity) + 1e-10`. -/
def intensity_map (st : SimState) (x_range y_range : ℝ × ℝ) (i j : Fin 200) : ℝ :=
  intensityRaw st x_range y_range i j / (intensityMax st x_range y_range + 1e-10)

/-- `BeamformingSimulator.simulate_multiple_arrays`: returns the (unchanged)
state together with the x samples, y samples and normalized intensity map.
No code path raises, so there is no error component. -/
def simulate_multiple_arrays (st : SimState) (x_range y_range : ℝ × ℝ) :
    SimState × ((Fin 200 → ℝ) × (Fin 200 → ℝ) × (Fin 200 → Fin 200 → ℝ)) :=
  (st, (linspace x_range.1 x_range.2, linspace y_range.1 y_range.2,
        intensity_map st x_range y_range))

/-- The per-element steering phase shift of `calculate_array_factor`:
`-k * (x * sin(radians(steering)) + y * cos(radians(steering)))` —
no curvature sign here, unlike `steering_phase_grid`. -/
def steering_phase_af (k steering_angle : ℝ) (e : ℝ × ℝ) : ℝ :=
  -k * (e.1 * Real.sin (radians steering_angle) +
        e.2 * Real.cos (radians steering_angle))

/-- One element's contribution
`np.exp(1j * (k * (x*sin(radians θ) + y*cos(radians θ)) + phase_shift))`
to the array factor at angle `θ` (degrees). -/
def afContribution (k steering_angle : ℝ) (e : ℝ × ℝ) (θ : ℝ) : ℂ :=
  Complex.exp (Complex.I *
    ((k * (e.1 * Real.sin (radians θ) + e.2 * Real.cos (radians θ)) +
      steering_phase_af k steering_angle e : ℝ) : ℂ))

/-- The accumulation loop of `calculate_array_factor` over the element
positions of one array. -/
def afSum (k steering_angle : ℝ) (a : ArrayInfo) (θ : ℝ) : ℂ :=
  (calculate_element_positions a.num_elements a.spacing a.curvature).foldl
    (fun acc e => acc + afContribution k steering_angle e θ) 0

/-- `BeamformingSimulator.calculate_array_factor` at one requested angle:
reads `self.arrays_info[0]` (an `IndexError` when the list is empty),
accumulates the contributions of that first array's elements and returns
the squared magnitude.  The state is returned unchanged. -/
def calculate_array_factor (st : SimState) (θ : ℝ) :
    SimState × Except PyError ℝ :=
  (st,
   match st.arrays_info with
   | [] => .error .indexError
   | a :: _ => .ok (Complex.abs (afSum st.k st.steering_angle a θ) ^ 2))

/-- `BeamformingSimulator.update_operating_frequency`: first assigns
`self.frequency = frequency`; then `self.wavelength = 3e8 / self.frequency`
raises `ZeroDivisionError` at frequency 0, leaving `wavelength` and `k`
at their previous values; otherwise both derived fields are recomputed. -/
def update_operating_frequency (st : SimState) (frequency : ℝ) :
    SimState × Option PyError :=
  if frequency = 0 then
    ({ st with frequency := frequency }, some .zeroDivisionError)
  else
    let wavelength := 3e8 / frequency
    ({ st with
        frequency := frequency
        wavelength := wavelength
        k := 2 * Real.pi / wavelength }, none)

/-- `BeamformingSimulator.update_steering_angle`: assigns only
`self.steering_angle`. -/
def update_steering_angle (st : SimState) (steering_angle : ℝ) : SimState :=
  { st with steering_angle := steering_angle }

/-- Spec-side formula for the pre-normalization field of `simulate_grid`:
the sum, over all elements of all configured arrays, of
`exp(i·(k·distance + φ))` with
`φ = −k·(ex·sin(σ·steering_rad) + ey·cos(steering_rad))` and `σ = −1`
exactly when the array's `curvature_degrees == 0`, `σ = +1` otherwise. -/
def spec_field_sum (k steering_angle : ℝ) (arrays_info : List ArrayInfo) (p : ℝ × ℝ) : ℂ :=
  (arrays_info.map fun a =>
    ((calculate_element_positions a.num_elements a.spacing a.curvature).map fun e =>
      Complex.exp (Complex.I *
        ((k * distance p e +
          -k * (e.1 * Real.sin ((if a.curvature = 0 then (-1 : ℝ) else 1) * radians steering_angle) +
                e.2 * Real.cos (radians steering_angle)) : ℝ) : ℂ))).sum).sum

/-! ### Helper lemmas -/

/-- A `foldl` that adds `f x` for each list element is the initial value
plus the sum of the mapped list. -/
lemma foldl_add_eq_sum {α : Type} (f : α → ℂ) (l : List α) (c : ℂ) :
    l.foldl (fun acc x => acc + f x) c = c + (l.map f).sum := by
  induction l generalizing c with
  | nil => simp
  | cons a t ih => simp [ih, add_assoc]

/-- The nested accumulation loop of `simulate_multiple_arrays` computes the
double sum over arrays and their element positions. -/
lemma fieldAt_eq_double_sum (k sa : ℝ) (cfgs : List ArrayInfo) (p : ℝ × ℝ) :
    fieldAt k sa cfgs p =
      (cfgs.map fun a =>
        ((calculate_element_positions a.num_elements a.spacing a.curvature).map fun e =>
          gridContribution k sa (curvatureSign a) e p).sum).sum := by
  have aux : ∀ (l : List ArrayInfo) (c : ℂ),
      l.foldl
        (fun acc a =>
          (calculate_element_positions a.num_elements a.spacing a.curvature).foldl
            (fun acc2 e => acc2 + gridContribution k sa (curvatureSign a) e p) acc)
        c =
      c + (l.map fun a =>
        ((calculate_element_positions a.num_elements a.spacing a.curvature).map fun e =>
          gridContribution k sa (curvatureSign a) e p).sum).sum := by
    intro l
    induction l with
    | nil => simp
    | cons a t ih =>
        intro c
        simp only [List.foldl_cons, List.map_cons, List.sum_cons, ih, foldl_add_eq_sum]
        ring
  rw [fieldAt, aux, zero_add]

/-- The accumulated field equals the spec-side double sum. -/
lemma fieldAt_eq_spec (k sa : ℝ) (cfgs : List ArrayInfo) (p : ℝ × ℝ) :
    fieldAt k sa cfgs p = spec_field_sum k sa cfgs p := by
  rw [fieldAt_eq_double_sum]
  unfold spec_field_sum gridContribution steering_phase_grid curvatureSign
  rfl

/-- `|exp(i·r)| = 1` for real `r`. -/
lemma abs_exp_I_mul (r : ℝ) : Complex.abs (Complex.exp (Complex.I * (r : ℂ))) = 1 := by
  rw [mul_comm]
  exact Complex.abs_exp_ofReal_mul_I r

/-! ### Claim theorems -/

/-- Claim C1: the pre-normalization complex field accumulated by
`simulate_multiple_arrays` at each grid point equals the sum over all
elements of all configured arrays of `exp(i·(k·distance + φ))`, where `φ`
uses the sign `σ = −1` exactly when that array's curvature is zero and
`σ = +1` otherwise, and the pre-normalization intensity is the squared
magnitude of that sum. -/
theorem C1_grid_field_is_spec_sum (st : SimState) (x_range y_range : ℝ × ℝ)
    (i j : Fin 200) (k sa : ℝ) (cfgs : List ArrayInfo) (p : ℝ × ℝ) :
    fieldAt k sa cfgs p = spec_field_sum k sa cfgs p ∧
    intensityRaw st x_range y_range i j =
      Complex.abs (spec_field_sum st.k st.steering_angle st.arrays_info
        (linspace x_range.1 x_range.2 j, linspace y_range.1 y_range.2 i)) ^ 2 := by
  refine ⟨fieldAt_eq_spec k sa cfgs p, ?_⟩
  rw [intensityRaw, fieldAt_eq_spec]

/-- Claim C2: for `num_elements ≥ 2` and `spacing > 0`,
`calculate_element_positions` places a linear array (`curvature = 0`) at
`(i·s − (n−1)·s/2, 0)` — symmetric about `x = 0`, evenly spaced by `s`,
all `y = 0` — and a curved array (`curvature ≠ 0`) at
`(r·cos(angle_i) − r, r·sin(angle_i))` with `r = (n−1)·s / radians c` and
`angle_i = −c_rad/2 + i·c_rad/(n−1)`, so all curved positions lie on the
circle of radius `r` centred at `(−r, 0)`, with constant angular increment
spanning `c_rad`. -/
theorem C2_positions (n : ℕ) (s c : ℝ) (hn : 2 ≤ n) (hs : 0 < s) (hc : c ≠ 0) :
    (∀ i, i < n →
      (calculate_element_positions n s 0)[i]? =
        some ((i : ℝ) * s - ((n : ℝ) - 1) * s / 2, (0 : ℝ))) ∧
    (∀ i, i < n → ∀ p q : ℝ × ℝ,
      (calculate_element_positions n s 0)[i]? = some p →
      (calculate_element_positions n s 0)[n - 1 - i]? = some q →
      p.1 = -q.1 ∧ p.2 = 0) ∧
    (∀ i, i + 1 < n → ∀ p q : ℝ × ℝ,
      (calculate_element_positions n s 0)[i]? = some p →
      (calculate_element_positions n s 0)[i + 1]? = some q →
      q.1 - p.1 = s) ∧
    (∀ i, i < n →
      (calculate_element_positions n s c)[i]? =
        some (((n : ℝ) - 1) * s / radians c *
                Real.cos (-radians c / 2 + (i : ℝ) * angular_step n (radians c)) -
              ((n : ℝ) - 1) * s / radians c,
              ((n : ℝ) - 1) * s / radians c *
                Real.sin (-radians c / 2 + (i : ℝ) * angular_step n (radians c)))) ∧
    (∀ i, i < n → ∀ p : ℝ × ℝ,
      (calculate_element_positions n s c)[i]? = some p →
      (p.1 + ((n : ℝ) - 1) * s / radians c) ^ 2 + p.2 ^ 2 =
        (((n : ℝ) - 1) * s / radians c) ^ 2) ∧
    (∀ i : ℕ,
      (-radians c / 2 + ((i : ℝ) + 1) * angular_step n (radians c)) -
        (-radians c / 2 + (i : ℝ) * angular_step n (radians c)) =
      angular_step n (radians c)) ∧
    ((-radians c / 2 + ((n - 1 : ℕ) : ℝ) * angular_step n (radians c)) -
      (-radians c / 2 + (0 : ℝ) * angular_step n (radians c)) = radians c) := by
  have hne : ((n : ℝ) - 1) ≠ 0 := by
    have h2 : (2 : ℝ) ≤ (n : ℝ) := by exact_mod_cast hn
    linarith
  have hlin : ∀ i, i < n →
      (calculate_element_positions n s 0)[i]? =
        some ((i : ℝ) * s - ((n : ℝ) - 1) * s / 2, (0 : ℝ)) := by
    intro i hi
    rw [calculate_element_positions, if_pos rfl, List.getElem?_map, List.getElem?_range hi]
    rfl
  have hcur : ∀ i, i < n →
      (calculate_element_positions n s c)[i]? =
        some (((n : ℝ) - 1) * s / radians c *
                Real.cos (-radians c / 2 + (i : ℝ) * angular_step n (radians c)) -
              ((n : ℝ) - 1) * s / radians c,
              ((n : ℝ) - 1) * s / radians c *
                Real.sin (-radians c / 2 + (i : ℝ) * angular_step n (radians c))) := by
    intro i hi
    rw [calculate_element_positions, if_neg hc, List.getElem?_map, List.getElem?_range hi]
    rfl
  refine ⟨hlin, ?_, ?_, hcur, ?_, ?_, ?_⟩
  · intro i hi p q hp hq
    have hi' : n - 1 - i < n := by omega
    rw [hlin i hi, Option.some.injEq] at hp
    rw [hlin _ hi', Option.some.injEq] at hq
    subst hp
    subst hq
    have hcast : ((n - 1 - i : ℕ) : ℝ) = (n : ℝ) - 1 - (i : ℝ) := by
      rw [Nat.cast_sub (by omega : i ≤ n - 1), Nat.cast_sub (by omega : 1 ≤ n)]
      push_cast
      ring
    constructor
    · rw [hcast]
      ring
    · rfl
  · intro i hi p q hp hq
    rw [hlin i (by omega), Option.some.injEq] at hp
    rw [hlin (i + 1) hi, Option.some.injEq] at hq
    subst hp
    subst hq
    push_cast
    ring
  · intro i hi p hp
    rw [hcur i hi, Option.some.injEq] at hp
    subst hp
    have htrig := Real.sin_sq_add_cos_sq (-radians c / 2 + (i : ℝ) * angular_step n (radians c))
    dsimp only
    linear_combination (((n : ℝ) - 1) * s / radians c) ^ 2 * htrig
  · intro i
    ring
  · have hcast : ((n - 1 : ℕ) : ℝ) = (n : ℝ) - 1 := by
      rw [Nat.cast_sub (by omega : 1 ≤ n)]
      push_cast
      ring
    rw [hcast, angular_step]
    field_simp

/-- Witness for C2 at the concrete input `n = 2`, `s = 1`, `c = 90`. -/
theorem C2_positions_witness :
    (2 ≤ 2) ∧ (0 < (1 : ℝ)) ∧ ((90 : ℝ) ≠ 0) ∧
    (calculate_element_positions 2 1 0)[0]? =
      some (((0 : ℕ) : ℝ) * 1 - ((2 : ℕ) : ℝ) * 1 / 2 + 1 * 1 / 2, (0 : ℝ)) := by
  refine ⟨le_refl 2, by norm_num, by norm_num, ?_⟩
  have h := (C2_positions 2 1 90 (le_refl 2) (by norm_num) (by norm_num)).1 0 (by norm_num)
  rw [h]
  norm_num

/-- Claim C3: for a non-empty configuration list, `calculate_array_factor`
at angle `θ` returns the squared magnitude of the sum, over the elements
`(x, y)` of the FIRST configured array only, of
`exp(i·(k·(x·sin θ_rad + y·cos θ_rad) + φ))` with
`φ = −k·(x·sin steering_rad + y·cos steering_rad)` (no curvature sign
flip), and the result is independent of every configuration after the
first; no normalization is applied. -/
theorem C3_array_factor (st : SimState) (a : ArrayInfo) (rest rest' : List ArrayInfo)
    (θ : ℝ) (hcfg : st.arrays_info = a :: rest) :
    (calculate_array_factor st θ).2 =
      .ok (Complex.abs
        (((calculate_element_positions a.num_elements a.spacing a.curvature).map fun e =>
          Complex.exp (Complex.I *
            ((st.k * (e.1 * Real.sin (radians θ) + e.2 * Real.cos (radians θ)) +
              -st.k * (e.1 * Real.sin (radians st.steering_angle) +
                       e.2 * Real.cos (radians st.steering_angle)) : ℝ) : ℂ))).sum) ^ 2) ∧
    (calculate_array_factor { st with arrays_info := a :: rest' } θ).2 =
      (calculate_array_factor st θ).2 := by
  constructor
  · simp only [calculate_array_factor, hcfg]
    rw [afSum, foldl_add_eq_sum, zero_add]
    rfl
  · simp only [calculate_array_factor, hcfg]

/-- Witness for C3 at a concrete two-array state and angle 30. -/
theorem C3_array_factor_witness :
    (mkSimulator 3e8 15 [⟨2, 0.5, 0⟩, ⟨3, 0.25, 40⟩]).arrays_info =
      ⟨2, 0.5, 0⟩ :: [⟨3, 0.25, 40⟩] ∧
    (calculate_array_factor
        { mkSimulator 3e8 15 [⟨2, 0.5, 0⟩, ⟨3, 0.25, 40⟩] with
            arrays_info := ⟨2, 0.5, 0⟩ :: [] } 30).2 =
      (calculate_array_factor (mkSimulator 3e8 15 [⟨2, 0.5, 0⟩, ⟨3, 0.25, 40⟩]) 30).2 :=
  ⟨rfl,
   (C3_array_factor (mkSimulator 3e8 15 [⟨2, 0.5, 0⟩, ⟨3, 0.25, 40⟩])
      ⟨2, 0.5, 0⟩ [⟨3, 0.25, 40⟩] [] 30 rfl).2⟩

/-- Claim C9: `simulate_multiple_arrays` and `calculate_array_factor`
leave the simulator state unchanged, and `update_steering_angle` modifies
only the `steering_angle` field. -/
theorem C9_frame (st : SimState) (x_range y_range : ℝ × ℝ) (θ a : ℝ) :
    (simulate_multiple_arrays st x_range y_range).1 = st ∧
    (calculate_array_factor st θ).1 = st ∧
    (update_steering_angle st a).steering_angle = a ∧
    (update_steering_angle st a).frequency = st.frequency ∧
    (update_steering_angle st a).wavelength = st.wavelength ∧
    (update_steering_angle st a).k = st.k ∧
    (update_steering_angle st a).arrays_info = st.arrays_info :=
  ⟨rfl, rfl, rfl, rfl, rfl, rfl, rfl⟩

/-! ### Normalization facts (C4) -/

lemma intensityRaw_nonneg (st : SimState) (x_range y_range : ℝ × ℝ) (i j : Fin 200) :
    0 ≤ intensityRaw st x_range y_range i j :=
  pow_nonneg (Complex.abs.nonneg _) 2

lemma intensityRaw_le_max (st : SimState) (x_range y_range : ℝ × ℝ) (i j : Fin 200) :
    intensityRaw st x_range y_range i j ≤ intensityMax st x_range y_range :=
  Finset.le_sup' (fun ij : Fin 200 × Fin 200 => intensityRaw st x_range y_range ij.1 ij.2)
    (Finset.mem_univ (i, j))

lemma intensityMax_nonneg (st : SimState) (x_range y_range : ℝ × ℝ) :
    0 ≤ intensityMax st x_range y_range :=
  le_trans (intensityRaw_nonneg st x_range y_range 0 0)
    (intensityRaw_le_max st x_range y_range 0 0)

/-- Claim C4 (amended): every normalized intensity value lies in `[0, 1)`
(so in particular in `[0, 1]` but never exactly `1`), zero-field points map
to 0, the largest normalized value `M / (M + 1e-10)` is attained exactly at
the grid points whose raw intensity equals the grid maximum `M`, and it is
attained at some grid point. -/
theorem C4_normalization (st : SimState) (x_range y_range : ℝ × ℝ)
    (h : st.arrays_info ≠ []) :
    (∀ i j : Fin 200,
      0 ≤ intensity_map st x_range y_range i j ∧
      intensity_map st x_range y_range i j < 1 ∧
      (intensityRaw st x_range y_range i j = 0 →
        intensity_map st x_range y_range i j = 0) ∧
      (intensity_map st x_range y_range i j =
          intensityMax st x_range y_range / (intensityMax st x_range y_range + 1e-10) ↔
        intensityRaw st x_range y_range i j = intensityMax st x_range y_range)) ∧
    (∃ i j : Fin 200,
      intensity_map st x_range y_range i j =
        intensityMax st x_range y_range / (intensityMax st x_range y_range + 1e-10)) := by
  have hε : (0 : ℝ) < 1e-10 := by norm_num
  have hden : 0 < intensityMax st x_range y_range + 1e-10 :=
    lt_of_lt_of_le hε (by linarith [intensityMax_nonneg st x_range y_range])
  constructor
  · intro i j
    refine ⟨div_nonneg (intensityRaw_nonneg st x_range y_range i j) hden.le, ?_, ?_, ?_⟩
    · rw [intensity_map, div_lt_one hden]
      linarith [intensityRaw_le_max st x_range y_range i j]
    · intro h0
      rw [intensity_map, h0, zero_div]
    · exact div_left_inj' (ne_of_gt hden)
  · obtain ⟨ij, _, hij⟩ :=
      Finset.exists_mem_eq_sup' (Finset.univ_nonempty (α := Fin 200 × Fin 200))
        (fun ij : Fin 200 × Fin 200 => intensityRaw st x_range y_range ij.1 ij.2)
    have hij' : intensityMax st x_range y_range = intensityRaw st x_range y_range ij.1 ij.2 :=
      hij
    exact ⟨ij.1, ij.2, by rw [intensity_map, hij']⟩

/-- A simulator configured with one single-element linear array. -/
def stSingle : SimState := mkSimulator 3e8 0 [⟨1, 0.5, 0⟩]

lemma abs_gridContribution (k steering_angle one : ℝ) (e p : ℝ × ℝ) :
    Complex.abs (gridContribution k steering_angle one e p) = 1 :=
  abs_exp_I_mul _

lemma stSingle_intensityRaw (x_range y_range : ℝ × ℝ) (i j : Fin 200) :
    intensityRaw stSingle x_range y_range i j = 1 := by
  have harr : stSingle.arrays_info = [⟨1, 0.5, 0⟩] := rfl
  have hrange : List.range 1 = [0] := rfl
  rw [intensityRaw, harr, fieldAt]
  simp only [List.foldl_cons, List.foldl_nil]
  rw [calculate_element_positions]
  simp only [if_pos rfl, if_true, hrange, List.map_cons, List.map_nil,
    List.foldl_cons, List.foldl_nil, zero_add]
  rw [abs_gridContribution, one_pow]

lemma stSingle_intensityMax (x_range y_range : ℝ × ℝ) :
    intensityMax stSingle x_range y_range = 1 := by
  rw [intensityMax]
  have hfun : (fun ij : Fin 200 × Fin 200 => intensityRaw stSingle x_range y_range ij.1 ij.2) =
      fun _ => (1 : ℝ) :=
    funext fun ij => stSingle_intensityRaw x_range y_range ij.1 ij.2
  rw [hfun, Finset.sup'_const]

/-- Counterexample to C4 as stated: for the single-element configuration
every grid point gets normalized intensity `1 / (1 + 1e-10)`, so no grid
point reaches exactly `1.0`. -/
theorem C4_counterexample :
    simulate_multiple_arrays stSingle (0, 1) (0, 1) =
      (stSingle, (linspace 0 1, linspace 0 1, fun _ _ => 1 / (1 + 1e-10))) ∧
    (1 / (1 + 1e-10) : ℝ) ≠ 1 := by
  constructor
  · have hmap : intensity_map stSingle (0, 1) (0, 1) = fun _ _ => 1 / (1 + 1e-10) := by
      funext i j
      rw [intensity_map, stSingle_intensityRaw, stSingle_intensityMax]
    simp only [simulate_multiple_arrays, hmap]
  · norm_num

/-- Witness for C4 at the single-element configuration. -/
theorem C4_normalization_witness :
    stSingle.arrays_info ≠ [] ∧
    0 ≤ intensity_map stSingle (0, 1) (0, 1) 0 0 :=
  ⟨List.cons_ne_nil _ _,
   (((C4_normalization stSingle (0, 1) (0, 1) (List.cons_ne_nil _ _)).1 0 0).1)⟩

/-! ### Empty-configuration behaviour (C5) -/

/-- A simulator with an empty configuration list. -/
def stEmpty : SimState := mkSimulator 3e8 0 []

/-- Claim C5 (amended): on an empty configuration list,
`calculate_array_factor` fails (with an index error from
`self.arrays_info[0]`) while `simulate_multiple_arrays` does not fail and
returns the identically-zero intensity map. -/
theorem C5_empty_configuration (st : SimState) (θ : ℝ) (x_range y_range : ℝ × ℝ)
    (h : st.arrays_info = []) :
    (calculate_array_factor st θ).2 = .error .indexError ∧
    (simulate_multiple_arrays st x_range y_range).2.2.2 = fun _ _ => (0 : ℝ) := by
  constructor
  · simp only [calculate_array_factor, h]
  · have hraw : ∀ i j : Fin 200, intensityRaw st x_range y_range i j = 0 := by
      intro i j
      rw [intensityRaw, h, fieldAt]
      simp
    have hmap : (simulate_multiple_arrays st x_range y_range).2.2.2 =
        intensity_map st x_range y_range := rfl
    rw [hmap]
    funext i j
    rw [intensity_map, hraw, zero_div]

/-- Witness for C5 at the concrete empty-configuration simulator. -/
theorem C5_empty_configuration_witness :
    stEmpty.arrays_info = [] ∧
    (calculate_array_factor stEmpty 0).2 = .error .indexError :=
  ⟨rfl, (C5_empty_configuration stEmpty 0 (0, 1) (0, 1) rfl).1⟩

/-- Counterexample to C5 as stated: at the concrete empty-configuration
simulator, `simulate_multiple_arrays` does not fail — it returns the grid
axes with the identically-zero intensity map. -/
theorem C5_counterexample :
    simulate_multiple_arrays stEmpty (0, 1) (0, 1) =
      (stEmpty, (linspace 0 1, linspace 0 1, fun _ _ => (0 : ℝ))) := by
  have hmap := (C5_empty_configuration stEmpty 0 (0, 1) (0, 1) rfl).2
  simp only [simulate_multiple_arrays] at hmap ⊢
  rw [hmap]

/-! ### Frequency update (C6) -/

/-- Claim C6 (amended): `update_operating_frequency` performs no
validation.  For any `hz ≠ 0` (negative included) it succeeds, setting
`frequency`, `wavelength = 3e8 / hz` and `k = 2π / wavelength` together
and touching nothing else; for `hz = 0` it fails with a division-by-zero
error after already having set `frequency := 0`, leaving `wavelength` and
`k` stale. -/
theorem C6_update_frequency (st : SimState) (f : ℝ) :
    (f ≠ 0 →
      (update_operating_frequency st f).2 = none ∧
      (update_operating_frequency st f).1.frequency = f ∧
      (update_operating_frequency st f).1.wavelength = 3e8 / f ∧
      (update_operating_frequency st f).1.k =
        2 * Real.pi / (update_operating_frequency st f).1.wavelength ∧
      (update_operating_frequency st f).1.steering_angle = st.steering_angle ∧
      (update_operating_frequency st f).1.arrays_info = st.arrays_info) ∧
    (f = 0 →
      (update_operating_frequency st f).2 = some .zeroDivisionError ∧
      (update_operating_frequency st f).1.frequency = 0 ∧
      (update_operating_frequency st f).1.wavelength = st.wavelength ∧
      (update_operating_frequency st f).1.k = st.k) := by
  constructor
  · intro hf
    rw [update_operating_frequency, if_neg hf]
    exact ⟨rfl, rfl, rfl, rfl, rfl, rfl⟩
  · intro hf
    subst hf
    rw [update_operating_frequency, if_pos rfl]
    exact ⟨rfl, rfl, rfl, rfl⟩

/-- Counterexample to C6 as stated: `update_operating_frequency` with the
negative frequency `-5` does not fail, and it does change `wavelength`
(from `1` to `-6e7`). -/
theorem C6_counterexample :
    (update_operating_frequency stEmpty (-5)).2 = none ∧
    (update_operating_frequency stEmpty (-5)).1.wavelength = -6e7 ∧
    stEmpty.wavelength = 1 := by
  refine ⟨?_, ?_, ?_⟩
  · rw [update_operating_frequency, if_neg (by norm_num)]
  · rw [update_operating_frequency, if_neg (by norm_num)]
    show (3e8 : ℝ) / (-5) = -6e7
    norm_num
  · show (3e8 : ℝ) / 3e8 = 1
    norm_num

/-- Witness for C6 at frequency 2. -/
theorem C6_update_frequency_witness :
    ((2 : ℝ) ≠ 0) ∧
    (update_operating_frequency stEmpty 2).2 = none ∧
    (update_operating_frequency stEmpty 2).1.wavelength = 3e8 / 2 := by
  have h := (C6_update_frequency stEmpty 2).1 (by norm_num)
  exact ⟨by norm_num, h.1, h.2.2.1⟩

/-! ### Degenerate single-element geometry (C7, C8) -/

lemma abs_afContribution (k steering_angle : ℝ) (e : ℝ × ℝ) (θ : ℝ) :
    Complex.abs (afContribution k steering_angle e θ) = 1 :=
  abs_exp_I_mul _

/-- Claim C7: for `num_elements = 1` the linear branch does return the
single position `(0, 0)`; but in the curved branch (`curvature ≠ 0`) the
angular-step formula divides by `(n − 1) = 0` — the division is NOT
guarded in the source. -/
theorem C7_single_element (s c : ℝ) (hs : 0 < s) (hc : c ≠ 0) :
    calculate_element_positions 1 s 0 = [((0 : ℝ), (0 : ℝ))] ∧
    angular_step 1 (radians c) = radians c / 0 := by
  constructor
  · rw [calculate_element_positions, if_pos rfl]
    have hrange : List.range 1 = [0] := rfl
    rw [hrange]
    simp only [List.map_cons, List.map_nil]
    norm_num
  · rw [angular_step]
    norm_num

/-- Witness for C7 at `s = 1`, `c = 90`. -/
theorem C7_single_element_witness :
    (0 < (1 : ℝ)) ∧ ((90 : ℝ) ≠ 0) ∧
    calculate_element_positions 1 1 0 = [((0 : ℝ), (0 : ℝ))] :=
  ⟨by norm_num, by norm_num, (C7_single_element 1 90 (by norm_num) (by norm_num)).1⟩

/-- Claim C8 (the uncurved part that the code does satisfy): with a first
array of one element and `curvature = 0`, the array factor is the constant
`1` at every requested angle. -/
theorem C8_single_element_constant (st : SimState) (s : ℝ) (rest : List ArrayInfo)
    (θ1 θ2 : ℝ) (hcfg : st.arrays_info = ⟨1, s, 0⟩ :: rest) :
    (calculate_array_factor st θ1).2 = .ok 1 ∧
    (calculate_array_factor st θ1).2 = (calculate_array_factor st θ2).2 := by
  have key : ∀ θ : ℝ, (calculate_array_factor st θ).2 = .ok 1 := by
    intro θ
    simp only [calculate_array_factor, hcfg]
    have h1 : afSum st.k st.steering_angle ⟨1, s, 0⟩ θ =
        afContribution st.k st.steering_angle
          (((0 : ℕ) : ℝ) * s - (((1 : ℕ) : ℝ) - 1) * s / 2, 0) θ := by
      rw [afSum]
      dsimp only
      rw [calculate_element_positions, if_pos rfl]
      have hrange : List.range 1 = [0] := rfl
      rw [hrange]
      simp only [List.map_cons, List.map_nil, List.foldl_cons, List.foldl_nil, zero_add]
    rw [h1, abs_afContribution, one_pow]
  exact ⟨key θ1, (key θ1).trans (key θ2).symm⟩

/-- Witness for C8 at the single-element simulator and angles 10 and 55. -/
theorem C8_single_element_constant_witness :
    stSingle.arrays_info = ⟨1, 0.5, 0⟩ :: [] ∧
    (calculate_array_factor stSingle 10).2 = (calculate_array_factor stSingle 55).2 :=
  ⟨rfl, (C8_single_element_constant stSingle 0.5 [] 10 55 rfl).2⟩

/-! ### The steering angle maximizes the linear array factor (C10) -/

lemma afContribution_at_steering (k steering_angle x : ℝ) :
    afContribution k steering_angle (x, 0) steering_angle = 1 := by
  have h0 : k * (x * Real.sin (radians steering_angle) + 0 * Real.cos (radians steering_angle)) +
      -k * (x * Real.sin (radians steering_angle) + 0 * Real.cos (radians steering_angle)) = 0 := by
    ring
  show Complex.exp (Complex.I *
    ((k * (x * Real.sin (radians steering_angle) + 0 * Real.cos (radians steering_angle)) +
      -k * (x * Real.sin (radians steering_angle) + 0 * Real.cos (radians steering_angle)) : ℝ) : ℂ)) = 1
  rw [h0]
  simp

lemma list_sum_map_one {α : Type} (l : List α) (f : α → ℂ) :
    (∀ x ∈ l, f x = 1) → (l.map f).sum = (l.length : ℂ) := by
  induction l with
  | nil => intro _; simp
  | cons a t ih =>
      intro h
      simp only [List.map_cons, List.sum_cons, List.length_cons]
      rw [h a (List.mem_cons_self a t), ih (fun x hx => h x (List.mem_cons_of_mem a hx))]
      push_cast
      ring

lemma abs_list_sum_le_length {α : Type} (l : List α) (f : α → ℂ) :
    (∀ x ∈ l, Complex.abs (f x) = 1) →
      Complex.abs ((l.map f).sum) ≤ (l.length : ℝ) := by
  induction l with
  | nil => intro _; simp
  | cons a t ih =>
      intro h
      simp only [List.map_cons, List.sum_cons, List.length_cons]
      have hstep := Complex.abs.add_le (f a) ((t.map f).sum)
      have htail := ih (fun x hx => h x (List.mem_cons_of_mem a hx))
      rw [h a (List.mem_cons_self a t)] at hstep
      push_cast
      linarith

/-- The array-factor sum of a linear array evaluated at the steering angle
is the element count. -/
lemma afSum_linear_at_steering (k steering_angle : ℝ) (n : ℕ) (s : ℝ) :
    afSum k steering_angle ⟨n, s, 0⟩ steering_angle = (n : ℂ) := by
  rw [afSum]
  dsimp only
  rw [foldl_add_eq_sum, zero_add, calculate_element_positions, if_pos rfl, List.map_map]
  have h := list_sum_map_one (List.range n)
    ((fun e => afContribution k steering_angle e steering_angle) ∘
      fun (i : ℕ) => ((i : ℝ) * s - ((n : ℝ) - 1) * s / 2, (0 : ℝ)))
    (fun i _ => afContribution_at_steering k steering_angle ((i : ℝ) * s - ((n : ℝ) - 1) * s / 2))
  rw [h, List.length_range]

/-- The magnitude of the array-factor sum of a linear array is at most the
element count, at every angle. -/
lemma abs_afSum_linear_le (k steering_angle : ℝ) (n : ℕ) (s θ : ℝ) :
    Complex.abs (afSum k steering_angle ⟨n, s, 0⟩ θ) ≤ (n : ℝ) := by
  rw [afSum]
  dsimp only
  rw [foldl_add_eq_sum, zero_add, calculate_element_positions, if_pos rfl, List.map_map]
  have h := abs_list_sum_le_length (List.range n)
    ((fun e => afContribution k steering_angle e θ) ∘
      fun (i : ℕ) => ((i : ℝ) * s - ((n : ℝ) - 1) * s / 2, (0 : ℝ)))
    (fun i _ => abs_afContribution k steering_angle _ θ)
  rwa [List.length_range] at h

/-- Claim C10: for a first configured array with `curvature = 0`,
`n ≥ 1` elements and positive spacing, `calculate_array_factor` returns
exactly `n²` at the current steering angle, and at most `n²` at every
angle. -/
theorem C10_steering_max (st : SimState) (n : ℕ) (s : ℝ) (rest : List ArrayInfo)
    (θ : ℝ) (hcfg : st.arrays_info = ⟨n, s, 0⟩ :: rest) (hn : 1 ≤ n) (hs : 0 < s) :
    (calculate_array_factor st st.steering_angle).2 = .ok ((n : ℝ) ^ 2) ∧
    (∀ v : ℝ, (calculate_array_factor st θ).2 = .ok v → v ≤ (n : ℝ) ^ 2) := by
  constructor
  · simp only [calculate_array_factor, hcfg]
    rw [afSum_linear_at_steering, Complex.abs_natCast]
  · intro v hv
    simp only [calculate_array_factor, hcfg, Except.ok.injEq] at hv
    rw [← hv]
    exact pow_le_pow_left₀ (Complex.abs.nonneg _)
      (abs_afSum_linear_le st.k st.steering_angle n s θ) 2

/-- A simulator configured with one 4-element linear array, steered to 20°. -/
def stLinear4 : SimState := mkSimulator 3e8 20 [⟨4, 0.5, 0⟩]

/-- Witness for C10 at the 4-element linear array. -/
theorem C10_steering_max_witness :
    stLinear4.arrays_info = ⟨4, 0.5, 0⟩ :: [] ∧ 1 ≤ 4 ∧ 0 < (0.5 : ℝ) ∧
    (calculate_array_factor stLinear4 stLinear4.steering_angle).2 =
      .ok (((4 : ℕ) : ℝ) ^ 2) :=
  ⟨rfl, by norm_num, by norm_num,
   (C10_steering_max stLinear4 4 0.5 [] 0 rfl (by norm_num) (by norm_num)).1⟩

end

end Beamforming
